import Mathlib

/-!
Verification of the smashquote byte-unescaping library.

The Rust source (`src/lib.rs`) is shallowly embedded here: bytes are `Nat`
values below 256, the input iterator `bytes.iter().enumerate().peekable()`
becomes a list of bytes together with the offset of its head, and the output
sink (a `Vec<u8>` in `unescape_bytes`) becomes an accumulated list.  The main
scanning loop consumes a variable number of bytes per iteration, so it is
written as structural recursion on a fuel argument; the public wrappers pass
the input length as fuel, which is always sufficient because every loop
iteration consumes at least one byte.
-/

namespace Smashquote

/-! ## UTF-8 machinery

`String::from_utf8` validation and `String::from_utf8_lossy` decoding
(with the maximal-subpart replacement rule used by Rust) are modelled on
byte lists.  `utf8DecodeOne` decodes one sequence given its lead byte and
the following bytes; it returns the decoded codepoint (or `none` for an
invalid sequence) together with how many additional bytes beyond the lead
byte belong to the (maximal) sequence.
-/

/-- A UTF-8 continuation byte, `0x80..=0xBF`. -/
def isCont (b : Nat) : Bool := decide (0x80 ≤ b ∧ b ≤ 0xBF)

/-- Allowed first continuation byte of a three-byte sequence (rules for the
lead bytes `0xE0` and `0xED` are special, excluding overlong encodings and
surrogates). -/
def utf8Cont3First (b c : Nat) : Bool :=
  if b = 0xE0 then decide (0xA0 ≤ c ∧ c ≤ 0xBF)
  else if b = 0xED then decide (0x80 ≤ c ∧ c ≤ 0x9F)
  else isCont c

/-- Allowed first continuation byte of a four-byte sequence (rules for the
lead bytes `0xF0` and `0xF4` are special, excluding overlong encodings and
codepoints above `0x10FFFF`). -/
def utf8Cont4First (b c : Nat) : Bool :=
  if b = 0xF0 then decide (0x90 ≤ c ∧ c ≤ 0xBF)
  else if b = 0xF4 then decide (0x80 ≤ c ∧ c ≤ 0x8F)
  else isCont c

/-- Decode one UTF-8 sequence with lead byte `b` followed by `rest`.
Returns the codepoint (`none` if invalid) and the number of bytes of `rest`
belonging to the maximal subpart of the sequence. -/
def utf8DecodeOne (b : Nat) (rest : List Nat) : Option Nat × Nat :=
  if b ≤ 0x7F then (some b, 0)
  else if b < 0xC2 then (none, 0)
  else if b ≤ 0xDF then
    match rest with
    | [] => (none, 0)
    | c1 :: _ =>
      if isCont c1 then (some ((b - 0xC0) * 0x40 + (c1 - 0x80)), 1) else (none, 0)
  else if b ≤ 0xEF then
    match rest with
    | [] => (none, 0)
    | c1 :: rest1 =>
      if utf8Cont3First b c1 then
        match rest1 with
        | [] => (none, 1)
        | c2 :: _ =>
          if isCont c2 then
            (some ((b - 0xE0) * 0x1000 + (c1 - 0x80) * 0x40 + (c2 - 0x80)), 2)
          else (none, 1)
      else (none, 0)
  else if b ≤ 0xF4 then
    match rest with
    | [] => (none, 0)
    | c1 :: rest1 =>
      if utf8Cont4First b c1 then
        match rest1 with
        | [] => (none, 1)
        | c2 :: rest2 =>
          if isCont c2 then
            match rest2 with
            | [] => (none, 2)
            | c3 :: _ =>
              if isCont c3 then
                (some ((b - 0xF0) * 0x40000 + (c1 - 0x80) * 0x1000 +
                       (c2 - 0x80) * 0x40 + (c3 - 0x80)), 3)
              else (none, 2)
          else (none, 1)
      else (none, 0)
  else (none, 0)

/-- Fuel-indexed loop of the UTF-8 validator; fuel at least the list length
is always sufficient since each step consumes the lead byte. -/
def utf8ValidLoop : Nat → List Nat → Bool
  | _, [] => true
  | fuel + 1, b :: rest =>
    match utf8DecodeOne b rest with
    | (some _, k) => utf8ValidLoop fuel (rest.drop k)
    | (none, _) => false
  | 0, _ :: _ => false

/-- Model of `String::from_utf8(bs).is_ok()`: the byte list is well-formed
UTF-8. -/
def utf8Valid (bs : List Nat) : Bool := utf8ValidLoop bs.length bs

/-- Fuel-indexed loop of the lossy UTF-8 decoder. -/
def utf8LossyLoop : Nat → List Nat → List Nat
  | _, [] => []
  | fuel + 1, b :: rest =>
    match utf8DecodeOne b rest with
    | (c?, k) =>
      (match c? with | some c => c | none => 0xFFFD) :: utf8LossyLoop fuel (rest.drop k)
  | 0, _ :: _ => []

/-- Model of `String::from_utf8_lossy`: the codepoints obtained by decoding
`bs`, each maximal invalid subpart replaced by `0xFFFD`. -/
def utf8LossyChars (bs : List Nat) : List Nat := utf8LossyLoop bs.length bs

/-! ## Diagnostic formatters (`pretty_bytes`, `pretty_string`) -/

/-- An uppercase hexadecimal digit, as in Rust's `{:02X}` formatting. -/
def hexDigitUpper (n : Nat) : Char :=
  if n < 10 then Char.ofNat (48 + n) else Char.ofNat (55 + n)

/-- One byte rendered as two uppercase hex digits (`{:02X}`; bytes are
below 256 so the width is exactly two). -/
def byteHex (b : Nat) : String :=
  String.mk [hexDigitUpper (b / 16), hexDigitUpper (b % 16)]

/-- `pretty_bytes`: space-separated uppercase hex rendering of a byte list. -/
def pretty_bytes (bs : List Nat) : String :=
  String.intercalate " " (bs.map byteHex)

/-- The per-character substitution of `pretty_string`: codepoints
`0x00..=0x20` shift into the control-picture block, `0x7F` maps to
`0x247F`, everything else is kept. -/
def prettyChar (c : Nat) : Nat :=
  if c ≤ 0x20 then c + 0x2400
  else if c = 0x7F then 0x247F
  else c

/-- `pretty_string`: lossy-decode the bytes, then substitute control
characters with visible placeholders. -/
def pretty_string (bs : List Nat) : String :=
  String.mk ((utf8LossyChars bs).map (fun c => Char.ofNat (prettyChar c)))

/-! ## Radix parsing (`u8::from_str_radix`, `u32::from_str_radix`)

Rust's `from_str_radix` accepts an optional leading sign, then at least one
digit in the radix, and fails on overflow.  The stepwise checked arithmetic
of the fold is modelled by computing the exact value over `Nat` and checking
it against the type's bound at the end, which is equivalent because the
accumulator is monotone.  A leading `-` on an unsigned type succeeds exactly
when all digits are zero.
-/

/-- Model of `char::to_digit(radix)` on an ASCII byte. -/
def digitVal (r b : Nat) : Option Nat :=
  if 48 ≤ b ∧ b ≤ 57 ∧ b - 48 < r then some (b - 48)
  else if 97 ≤ b ∧ b ≤ 122 ∧ b - 97 + 10 < r then some (b - 97 + 10)
  else if 65 ≤ b ∧ b ≤ 90 ∧ b - 65 + 10 < r then some (b - 65 + 10)
  else none

/-- Value of a digit string in radix `r`, `none` at the first non-digit. -/
def digitsValue (r : Nat) (acc : Nat) : List Nat → Option Nat
  | [] => some acc
  | b :: rest =>
    match digitVal r b with
    | none => none
    | some d => digitsValue r (acc * r + d) rest

/-- Digits after an optional `+` sign: at least one digit, value below the
bound of the integer type. -/
def parseDigitsPos (r bound : Nat) (s : List Nat) : Option Nat :=
  if s.isEmpty then none
  else
    match digitsValue r 0 s with
    | none => none
    | some v => if v < bound then some v else none

/-- Model of `uN::from_str_radix` on a byte list (`bound` is `2^N`). -/
def fromStrRadix (r bound : Nat) (s : List Nat) : Option Nat :=
  match s with
  | [] => none
  | b :: rest =>
    if b = 43 then parseDigitsPos r bound rest
    else if b = 45 then
      if ¬ rest.isEmpty ∧ rest.all (fun d => digitVal r d = some 0) then some 0 else none
    else parseDigitsPos r bound s

/-! ## Codepoints -/

/-- Model of `char::from_u32(n).is_some()`: a Unicode scalar value. -/
def charFromU32Valid (n : Nat) : Bool :=
  decide (n < 0x110000 ∧ ¬ (0xD800 ≤ n ∧ n ≤ 0xDFFF))

/-- The UTF-8 encoding of a scalar value, as produced by pushing the char
onto a Rust `String` and taking its bytes. -/
def utf8Encode (c : Nat) : List Nat :=
  if c < 0x80 then [c]
  else if c < 0x800 then [0xC0 + c / 0x40, 0x80 + c % 0x40]
  else if c < 0x10000 then
    [0xE0 + c / 0x1000, 0x80 + (c / 0x40) % 0x40, 0x80 + c % 0x40]
  else
    [0xF0 + c / 0x40000, 0x80 + (c / 0x1000) % 0x40, 0x80 + (c / 0x40) % 0x40,
     0x80 + c % 0x40]

/-! ## Error model -/

/-- `InvalidBackslashKind` from the source, one constructor per kind. -/
inductive InvalidBackslashKind where
  | RustStyleUnicodeMissingCloseBrace
  | RustStyleUnicodeMissingDigits
  | UnicodeEscapeBadCodepoint
  | HexDigitsNotUnicode
  | HexDigitsNotHexDigits (range : List Nat)
  | HexDigitsNoDigits
  | OctalDigitsNotUnicode
  | OctalDigitsNotOctalDigits
  | UnicodeEscapeNoDigits
  | UnicodeEscapeEndOfString
  | ControlEscapeBadKey
  | ControlEscapeEndOfString
  | BackslashEscapeUnknown
  | BackslashEndOfString
deriving DecidableEq, Repr

/-- `UnescapeError` from the source.  `InvalidBackslash` carries the kind,
the offset of the backslash, and the two renderings of the raw escape
bytes; `MissingClose` carries only the renderings of the delimiter byte;
`IOError` wraps an external `std::io::Error`, modelled without payload. -/
inductive UnescapeError where
  | invalidBackslash (kind : InvalidBackslashKind) (offset : Nat)
      (string : String) (bytes : String)
  | missingClose (string : String) (bytes : String)
  | ioError
deriving DecidableEq, Repr

/-- `UnescapeError::missing_close`: build a `MissingClose` from the one-byte
delimiter. -/
def UnescapeError.missing_close (byte : Nat) : UnescapeError :=
  .missingClose (pretty_string [byte]) (pretty_bytes [byte])

/-- `UnescapeError::invalid_backslash`: build an `InvalidBackslash` from the
offset, the raw escape bytes and the kind. -/
def UnescapeError.invalid_backslash (offset : Nat) (bytes : List Nat)
    (kind : InvalidBackslashKind) : UnescapeError :=
  .invalidBackslash kind offset (pretty_string bytes) (pretty_bytes bytes)

/-- The offset field an error value carries, if any. -/
def errOffset : UnescapeError → Option Nat
  | .invalidBackslash _ o _ _ => some o
  | .missingClose _ _ => none
  | .ioError => none

/-- The raw-bytes (hex rendering) field an error value carries, if any. -/
def errRawBytes : UnescapeError → Option String
  | .invalidBackslash _ _ _ b => some b
  | .missingClose _ b => some b
  | .ioError => none

/-! ## `unhex` and the braced-unicode helper -/

/-- Result of a sub-decoder: the decoded bytes, a decode error, or a Rust
panic (out-of-range slice / `unreachable!`). -/
inductive SubResult where
  | ok (bytes : List Nat)
  | err (e : UnescapeError)
  | panicked
deriving DecidableEq, Repr

/-- The slice `escape[start..=i]` (when `stop = some i`) or `escape[start..]`
(when `stop = none`) taken by `unhex`. -/
def unhexRange (escape : List Nat) (start : Nat) (stop : Option Nat) : List Nat :=
  match stop with
  | some i => (escape.drop start).take (i + 1 - start)
  | none => escape.drop start

/-- Whether the slice taken by `unhex` is within bounds; Rust panics
otherwise. -/
def unhexInBounds (escape : List Nat) (start : Nat) (stop : Option Nat) : Bool :=
  match stop with
  | some i => decide (start ≤ i + 1 ∧ i < escape.length)
  | none => decide (start ≤ escape.length)

/-- `unhex`: slice the collected digit bytes out of the raw escape, check
they are text, parse them base-16 as a `u32`, validate the codepoint with
`char::from_u32`, and return its UTF-8 encoding. -/
def unhex (offset : Nat) (escape : List Nat) (start : Nat) (stop : Option Nat) :
    SubResult :=
  if unhexInBounds escape start stop then
    if utf8Valid (unhexRange escape start stop) then
      match fromStrRadix 16 (2 ^ 32) (unhexRange escape start stop) with
      | none =>
          .err (UnescapeError.invalid_backslash offset escape
            (.HexDigitsNotHexDigits (unhexRange escape start stop)))
      | some ord =>
          if charFromU32Valid ord then .ok (utf8Encode ord)
          else .err (UnescapeError.invalid_backslash offset escape
            .UnicodeEscapeBadCodepoint)
    else .err (UnescapeError.invalid_backslash offset escape .HexDigitsNotUnicode)
  else .panicked

/-- The `while let` loop of `un_rust_style_u`: push bytes onto the escape
capture until (and including) a `}`.  Returns the extended capture, the
number of bytes consumed, and whether the close brace was found. -/
def scanToBrace : List Nat → List Nat → List Nat × Nat × Bool
  | escape, [] => (escape, 0, false)
  | escape, b :: rest =>
    if b = 125 then (escape ++ [b], 1, true)
    else
      match scanToBrace (escape ++ [b]) rest with
      | (e2, k, f) => (e2, k + 1, f)

/-- `un_rust_style_u`: decode the `\u{...}` form.  `escape` is the capture
so far (`\u{`), `rest` the bytes after the open brace.  Returns the
sub-decoder result and the number of bytes consumed from `rest`.  The
source's `escape.len()-2` uses `usize` subtraction; call sites guarantee
the capture holds at least `\u{`, so the `Nat` truncated subtraction
agrees. -/
def un_rust_style_u (offset : Nat) (escape rest : List Nat) : SubResult × Nat :=
  let sb := scanToBrace escape rest
  let escape2 := sb.1
  let k := sb.2.1
  let found := sb.2.2
  if ¬ found then
    (.err (UnescapeError.invalid_backslash offset escape2
      .RustStyleUnicodeMissingCloseBrace), k)
  else
    let e := escape2.length - 2
    let s := 3
    if e = s - 1 then
      (.err (UnescapeError.invalid_backslash offset escape2
        .RustStyleUnicodeMissingDigits), k)
    else if e < s then (.panicked, k)
    else (unhex offset escape2 s (some e), k)

/-! ## The escape dispatcher -/

/-- `u8::is_ascii_digit`. -/
def isAsciiDigit (b : Nat) : Bool := decide (48 ≤ b ∧ b ≤ 57)

/-- `u8::is_ascii_hexdigit`. -/
def isAsciiHexdigit (b : Nat) : Bool :=
  decide ((48 ≤ b ∧ b ≤ 57) ∨ (97 ≤ b ∧ b ≤ 102) ∨ (65 ≤ b ∧ b ≤ 70))

/-- The bounded lookahead loop shared by the octal, hex and unicode
branches: `n` times, peek the next byte; if there is one, push it onto the
escape capture when `pred` holds, and then advance the iterator
unconditionally (the source advances on a non-match too, dropping that
byte).  The loop consumes `min n rest.length` bytes, so the remaining
input is `rest.drop n`; only the extended capture is returned. -/
def lookaheadN (pred : Nat → Bool) : Nat → List Nat → List Nat → List Nat
  | 0, escape, _ => escape
  | _ + 1, escape, [] => escape
  | n + 1, escape, b :: rest =>
    lookaheadN pred n (if pred b then escape ++ [b] else escape) rest

/-- Outcome of dispatching one escape sequence: bytes to write plus the
count of bytes consumed after the backslash (the remaining input is the
`drop` of that count, saturating when the input ran out), an error, the
silent fall-through of the end-of-input case (the source builds a
`BackslashEndOfString` error there but never returns it), or a panic. -/
inductive EscStep where
  | write (outBytes : List Nat) (consumed : Nat)
  | err (e : UnescapeError)
  | fallthrough
  | panicked
deriving DecidableEq, Repr

/-- The `b'0'..=b'9'` arm of the dispatcher: the triggering digit is
already in the capture; look ahead twice with `is_ascii_digit`, check the
collected run is text, and parse it base-8 as a `u8`. -/
def octalEscape (offset byte2 : Nat) (rest : List Nat) : EscStep :=
  let escape2 := lookaheadN isAsciiDigit 2 [92, byte2] rest
  if utf8Valid (escape2.drop 1) then
    match fromStrRadix 8 256 (escape2.drop 1) with
    | none =>
        .err (UnescapeError.invalid_backslash offset escape2
          .OctalDigitsNotOctalDigits)
    | some b => .write [b] 3
  else .err (UnescapeError.invalid_backslash offset escape2 .OctalDigitsNotUnicode)

/-- The `b'x'` arm of the dispatcher: look ahead twice with
`is_ascii_hexdigit`, fail if nothing was collected, check the run is text,
and parse it base-16 as a `u8`. -/
def hexEscape (offset : Nat) (rest : List Nat) : EscStep :=
  let escape2 := lookaheadN isAsciiHexdigit 2 [92, 120] rest
  if escape2.length = 2 then
    .err (UnescapeError.invalid_backslash offset escape2 .HexDigitsNoDigits)
  else if utf8Valid (escape2.drop 2) then
    match fromStrRadix 16 256 (escape2.drop 2) with
    | none =>
        .err (UnescapeError.invalid_backslash offset escape2
          (.HexDigitsNotHexDigits (escape2.drop 2)))
    | some b => .write [b] 3
  else .err (UnescapeError.invalid_backslash offset escape2 .HexDigitsNotUnicode)

/-- The `b'u'` arm of the dispatcher: take the next byte; `{` delegates to
`un_rust_style_u`; a hex digit starts up to three more lookahead steps
(whose push test erroneously re-checks that first digit, `byte3`) and the
run goes to `unhex`; anything else is the no-digits error, and a missing
byte is the end-of-string error. -/
def uEscape (offset : Nat) (rest : List Nat) : EscStep :=
  match rest with
  | [] => .err (UnescapeError.invalid_backslash offset [92, 117] .UnicodeEscapeEndOfString)
  | byte3 :: rest1 =>
    let escape3 := [92, 117] ++ [byte3]
    if byte3 = 123 then
      match un_rust_style_u offset escape3 rest1 with
      | (SubResult.ok bs, k) => .write bs (2 + k)
      | (SubResult.err e, _) => .err e
      | (SubResult.panicked, _) => .panicked
    else if ¬ isAsciiHexdigit byte3 then
      .err (UnescapeError.invalid_backslash offset escape3 .UnicodeEscapeNoDigits)
    else
      let escape4 := lookaheadN (fun _ => isAsciiHexdigit byte3) 3 escape3 rest1
      match unhex offset escape4 2 none with
      | SubResult.ok bs => .write bs 5
      | SubResult.err e => .err e
      | SubResult.panicked => .panicked

/-- The `b'U'` arm of the dispatcher: like the non-braced `\u` form but
with up to seven lookahead steps and no braced variant. -/
def uUpperEscape (offset : Nat) (rest : List Nat) : EscStep :=
  match rest with
  | [] => .err (UnescapeError.invalid_backslash offset [92, 85] .UnicodeEscapeEndOfString)
  | byte3 :: rest1 =>
    let escape3 := [92, 85] ++ [byte3]
    if ¬ isAsciiHexdigit byte3 then
      .err (UnescapeError.invalid_backslash offset escape3 .UnicodeEscapeNoDigits)
    else
      let escape4 := lookaheadN (fun _ => isAsciiHexdigit byte3) 7 escape3 rest1
      match unhex offset escape4 2 none with
      | SubResult.ok bs => .write bs 9
      | SubResult.err e => .err e
      | SubResult.panicked => .panicked

/-- The `b'c'` arm of the dispatcher: keys `@..=_` subtract `0x40`, keys
`` `..=~ `` subtract `0x60`, other keys are the bad-key error, and a
missing key byte is the end-of-string error. -/
def cEscape (offset : Nat) (rest : List Nat) : EscStep :=
  match rest with
  | [] => .err (UnescapeError.invalid_backslash offset [92, 99] .ControlEscapeEndOfString)
  | byte3 :: _ =>
    let escape3 := [92, 99] ++ [byte3]
    if 64 ≤ byte3 ∧ byte3 ≤ 95 then .write [byte3 - 64] 2
    else if 96 ≤ byte3 ∧ byte3 ≤ 126 then .write [byte3 - 96] 2
    else .err (UnescapeError.invalid_backslash offset escape3 .ControlEscapeBadKey)

/-- The escape dispatcher: the body of the `byte == b'\\'` arm of
`unescape_iter`, the match on the byte after the backslash.  `offset` is
the offset of the backslash; the argument list holds the bytes after the
backslash.  Each numeric family's arm is split out into its own
definition above. -/
def handleEscape (offset : Nat) : List Nat → EscStep
  | [] => .fallthrough
  | byte2 :: rest =>
    if byte2 = 97 then .write [0x07] 1
    else if byte2 = 98 then .write [0x08] 1
    else if byte2 = 101 ∨ byte2 = 69 then .write [0x1B] 1
    else if byte2 = 102 then .write [0x0C] 1
    else if byte2 = 110 then .write [0x0A] 1
    else if byte2 = 114 then .write [0x0D] 1
    else if byte2 = 116 then .write [0x09] 1
    else if byte2 = 118 then .write [0x0B] 1
    else if byte2 = 39 then .write [39] 1
    else if byte2 = 34 then .write [34] 1
    else if byte2 = 92 then .write [92] 1
    else if 48 ≤ byte2 ∧ byte2 ≤ 57 then octalEscape offset byte2 rest
    else if byte2 = 120 then hexEscape offset rest
    else if byte2 = 117 then uEscape offset rest
    else if byte2 = 85 then uUpperEscape offset rest
    else if byte2 = 99 then cEscape offset rest
    else .err (UnescapeError.invalid_backslash offset [92, byte2] .BackslashEscapeUnknown)

/-! ## The scan driver -/

/-- Result of `unescape_iter`: success with the returned offset, an error,
or a panic; each carries the bytes written to the sink so far. -/
inductive ScanResult where
  | ok (offset : Nat) (out : List Nat)
  | err (e : UnescapeError) (out : List Nat)
  | panicked (out : List Nat)
deriving DecidableEq, Repr

/-- The `while let` loop of `unescape_iter`, structurally recursive on a
fuel argument.  `pos` is the offset of the head of the remaining input,
`last_offset` the source's `last_offset` variable, `out` the sink contents.
Fuel at least the input length is always sufficient (each iteration
consumes at least the head byte); the fuel-exhausted equation is then
unreachable. -/
def unescapeLoop : Nat → List Nat → Nat → Option Nat → Option Nat → List Nat → ScanResult
  | _, [], _, close, last_offset, out =>
    (match close with
     | some c => ScanResult.err (UnescapeError.missing_close c) out
     | none =>
       match last_offset with
       | some o => ScanResult.ok o out
       | none => ScanResult.panicked out)
  | fuel + 1, byte :: rest, pos, close, _, out =>
    if byte = 92 then
      match handleEscape pos rest with
      | EscStep.write w k =>
          unescapeLoop fuel (rest.drop k) (pos + 1 + k) close (some pos) (out ++ w)
      | EscStep.err e => ScanResult.err e out
      | EscStep.fallthrough => unescapeLoop fuel [] (pos + 1) close (some pos) out
      | EscStep.panicked => ScanResult.panicked out
    else if close = some byte then ScanResult.ok pos out
    else unescapeLoop fuel rest (pos + 1) close (some pos) (out ++ [byte])
  | 0, _ :: _, _, _, _, out => ScanResult.panicked out

/-- `unescape_iter` on a byte list whose head sits at offset `pos`, with
sink contents `out` and the source's `last_offset` state. -/
def unescape_iter (input : List Nat) (pos : Nat) (close : Option Nat)
    (last_offset : Option Nat) (out : List Nat) : ScanResult :=
  unescapeLoop input.length input pos close last_offset out

/-- Result of `unescape_bytes`: the decoded bytes, an error, or a panic. -/
inductive BytesResult where
  | ok (out : List Nat)
  | err (e : UnescapeError)
  | panicked
deriving DecidableEq, Repr

/-- `unescape_bytes`: run `unescape_iter` over the whole input with no
close delimiter into a fresh sink and return the sink. -/
def unescape_bytes (bytes : List Nat) : BytesResult :=
  match unescape_iter bytes 0 none none [] with
  | .ok _ out => .ok out
  | .err e _ => .err e
  | .panicked _ => .panicked

/-! ## Helper lemmas -/

theorem digitVal_lt (r b d : Nat) (h : digitVal r b = some d) : b < 128 := by
  unfold digitVal at h
  split at h
  · omega
  · split at h
    · omega
    · split at h
      · omega
      · cases h

theorem digitsValue_ascii (r : Nat) (s : List Nat) :
    ∀ acc v, digitsValue r acc s = some v → ∀ x ∈ s, x < 128 := by
  induction s with
  | nil => intro _ _ _ x hx; cases hx
  | cons b rest ih =>
    intro acc v h x hx
    cases hdv : digitVal r b with
    | none => simp [digitsValue, hdv] at h
    | some d =>
      simp only [digitsValue, hdv] at h
      rcases List.mem_cons.mp hx with hxb | hxr
      · exact hxb ▸ digitVal_lt r b d hdv
      · exact ih _ v h x hxr

theorem parseDigitsPos_ascii (r bound v : Nat) (s : List Nat)
    (h : parseDigitsPos r bound s = some v) : ∀ x ∈ s, x < 128 := by
  unfold parseDigitsPos at h
  split at h
  · cases h
  · cases hdv : digitsValue r 0 s with
    | none => rw [hdv] at h; cases h
    | some w => exact digitsValue_ascii r s 0 w hdv

theorem fromStrRadix_ascii (r bound v : Nat) (s : List Nat)
    (h : fromStrRadix r bound s = some v) : ∀ x ∈ s, x < 128 := by
  cases s with
  | nil => intro x hx; cases hx
  | cons b rest =>
    simp only [fromStrRadix] at h
    intro x hx
    by_cases hb : b = 43
    · rw [if_pos hb] at h
      rcases List.mem_cons.mp hx with hxb | hxr
      · omega
      · exact parseDigitsPos_ascii r bound v rest h x hxr
    · rw [if_neg hb] at h
      by_cases hb2 : b = 45
      · rw [if_pos hb2] at h
        split at h
        · rcases List.mem_cons.mp hx with hxb | hxr
          · omega
          · rename_i hcond
            have hall := hcond.2
            rw [List.all_eq_true] at hall
            have hx0 := hall x hxr
            exact digitVal_lt r x 0 (by simpa using hx0)
        · cases h
      · rw [if_neg hb2] at h
        exact parseDigitsPos_ascii r bound v (b :: rest) h x hx

theorem utf8ValidLoop_ascii :
    ∀ fuel (s : List Nat), s.length ≤ fuel → (∀ x ∈ s, x < 128) →
      utf8ValidLoop fuel s = true := by
  intro fuel
  induction fuel with
  | zero =>
    intro s hl _
    match s with
    | [] => rfl
    | b :: rest => simp at hl
  | succ fuel ih =>
    intro s hl ha
    match s with
    | [] => rfl
    | b :: rest =>
      have hb : b < 128 := ha b (List.mem_cons_self b rest)
      have hdec : utf8DecodeOne b rest = (some b, 0) := by
        unfold utf8DecodeOne
        rw [if_pos (by omega)]
      simp only [utf8ValidLoop, hdec, List.drop_zero]
      exact ih rest (by simpa using Nat.le_of_succ_le_succ (by simpa using hl))
        (fun x hx => ha x (List.mem_cons_of_mem b hx))

theorem utf8Valid_ascii (s : List Nat) (h : ∀ x ∈ s, x < 128) :
    utf8Valid s = true :=
  utf8ValidLoop_ascii s.length s le_rfl h

/-! ## Claim theorems -/

/-- Claim C1: the claim states that each numeric/unicode sub-decoder stops
at the first byte outside its digit alphabet without consuming it, so that
decoding `\1a` yields byte `0x01` followed by the literal byte `a`.  The
code instead advances the iterator unconditionally during lookahead: on
`\1a` it silently consumes and drops the `a`, producing only `[0x01]`, and
on `\u4Z1` the unicode lookahead even pushes the non-hex bytes into the
digit run and fails instead of decoding `\u4` and leaving `Z1` alone. -/
theorem c1_lookahead_overconsumes :
    unescape_bytes [92, 49, 97] = BytesResult.ok [1] ∧
    unescape_bytes [92, 49, 97] ≠ BytesResult.ok [1, 97] ∧
    unescape_bytes [92, 117, 52, 90, 49] =
      BytesResult.err (UnescapeError.invalid_backslash 0 [92, 117, 52, 90, 49]
        (InvalidBackslashKind.HexDigitsNotHexDigits [52, 90, 49])) := by
  refine ⟨by decide, by decide, by decide⟩

/-- Claim C2: the claim states that the one-byte input `\` fails with the
backslash-at-end-of-input error.  The code builds that error value but
never returns it (the `return Err` is missing), so decoding a lone
backslash succeeds with offset 0 and an empty output. -/
theorem c2_lone_backslash_succeeds :
    unescape_iter [92] 0 none none [] = ScanResult.ok 0 [] ∧
    unescape_bytes [92] = BytesResult.ok [] := by
  refine ⟨by decide, by decide⟩

/-- Claim C3: the claim states that with no close delimiter an empty input
decodes successfully with offset 0 and zero bytes written.  The code
instead calls `last_offset.unwrap()` with `last_offset` still `None` and
panics. -/
theorem c3_empty_input_panics :
    unescape_iter [] 0 none none [] = ScanResult.panicked [] ∧
    unescape_bytes [] = BytesResult.panicked := by
  refine ⟨by decide, by decide⟩

/-- Claim C4: whenever the digit run sliced out of the escape capture by
`unhex` parses base-16 (as a `u32`) to a value `n`, the result is the
UTF-8 encoding of `n` when `n` is a Unicode scalar value, and the
bad-codepoint error otherwise (surrogates `0xD800..=0xDFFF` and values
above `0x10FFFF` are exactly the values `char::from_u32` rejects).  All
three unicode escape forms (`\u`, `\U`, `\u{...}`) funnel their digit runs
through `unhex`. -/
theorem c4_unhex_codepoint_validation (offset : Nat) (escape : List Nat)
    (start : Nat) (stop : Option Nat) (n : Nat)
    (hin : unhexInBounds escape start stop = true)
    (hp : fromStrRadix 16 (2 ^ 32) (unhexRange escape start stop) = some n) :
    unhex offset escape start stop =
      (if charFromU32Valid n then SubResult.ok (utf8Encode n)
       else SubResult.err (UnescapeError.invalid_backslash offset escape
         InvalidBackslashKind.UnicodeEscapeBadCodepoint)) := by
  have hv : utf8Valid (unhexRange escape start stop) = true :=
    utf8Valid_ascii _ (fromStrRadix_ascii 16 (2 ^ 32) n _ hp)
  unfold unhex
  rw [if_pos hin, if_pos hv, hp]

/-- Witness for C4 at the escape capture of `A`. -/
theorem c4_unhex_codepoint_validation_witness :
    unhex 0 [92, 117, 48, 48, 52, 49] 2 none =
      (if charFromU32Valid 65 then SubResult.ok (utf8Encode 65)
       else SubResult.err (UnescapeError.invalid_backslash 0
         [92, 117, 48, 48, 52, 49] InvalidBackslashKind.UnicodeEscapeBadCodepoint)) :=
  c4_unhex_codepoint_validation 0 [92, 117, 48, 48, 52, 49] 2 none 65
    (by decide) (by decide)

/-- Claim C9: the claim states that `\x` not immediately followed by a hex
digit always fails with the no-digits error, e.g. on `\xZ4`.  Because the
lookahead consumes non-matching bytes, the code skips the `Z`, collects
the later `4`, and decodes `\xZ4` to the byte `0x04`; only when both
lookahead bytes are non-hex (e.g. `\xZZ`) does it report the no-digits
error. -/
theorem c9_hex_skips_nonhex_byte :
    unescape_bytes [92, 120, 90, 52] = BytesResult.ok [4] ∧
    unescape_bytes [92, 120, 90, 90] =
      BytesResult.err (UnescapeError.invalid_backslash 0 [92, 120]
        InvalidBackslashKind.HexDigitsNoDigits) := by
  refine ⟨by decide, by decide⟩

/-- Claim C5: decoding `\` followed by the octal digits of a byte value
yields exactly that byte, for every octal digit string of one, two, or
three digits (covering both the minimal representation of each byte value
`0..=255` and any zero-padded form up to three digits; a three-digit run
denotes a byte exactly when its leading digit is at most 3). -/
theorem c5_octal_escape_roundtrip :
    (∀ d1, d1 < 8 → unescape_bytes [92, 48 + d1] = BytesResult.ok [d1]) ∧
    (∀ d1, d1 < 8 → ∀ d2, d2 < 8 →
      unescape_bytes [92, 48 + d1, 48 + d2] = BytesResult.ok [8 * d1 + d2]) ∧
    (∀ d1, d1 < 4 → ∀ d2, d2 < 8 → ∀ d3, d3 < 8 →
      unescape_bytes [92, 48 + d1, 48 + d2, 48 + d3] =
        BytesResult.ok [64 * d1 + 8 * d2 + d3]) := by
  refine ⟨by decide, by decide, by decide⟩

/-- Witness for C5 at `\141`, the octal escape for byte `0x61`. -/
theorem c5_octal_escape_roundtrip_witness :
    unescape_bytes [92, 48 + 1, 48 + 4, 48 + 1] =
      BytesResult.ok [64 * 1 + 8 * 4 + 1] :=
  c5_octal_escape_roundtrip.2.2 1 (by decide) 4 (by decide) 1 (by decide)

/-- Claim C7: for every key byte `x` in `@..=~` (`0x40..=0x7E`), `\c`
followed by `x` decodes to the single byte `x & 0x1F` (so the mapping is
case-insensitive), and every key byte outside that range fails with the
bad-key error. -/
theorem c7_control_key_mapping :
    ∀ x, x < 256 →
      (64 ≤ x → x ≤ 126 →
        unescape_bytes [92, 99, x] = BytesResult.ok [x &&& 0x1F]) ∧
      (x < 64 ∨ 126 < x →
        unescape_bytes [92, 99, x] =
          BytesResult.err (UnescapeError.invalid_backslash 0 [92, 99, x]
            InvalidBackslashKind.ControlEscapeBadKey)) := by
  set_option maxRecDepth 100000 in decide

/-- Witness for C7: `\cA` and `\ca` both decode to `0x01`. -/
theorem c7_control_key_mapping_witness :
    unescape_bytes [92, 99, 65] = BytesResult.ok [65 &&& 0x1F] ∧
    unescape_bytes [92, 99, 97] = BytesResult.ok [97 &&& 0x1F] :=
  ⟨(c7_control_key_mapping 65 (by decide)).1 (by decide) (by decide),
   (c7_control_key_mapping 97 (by decide)).1 (by decide) (by decide)⟩

/-- Scanning a run of plain bytes (no backslash, none equal to the close
delimiter) writes them through and stops with the delimiter's offset when
the delimiter is reached. -/
theorem scanPlainClose (c : Nat) (hc : c ≠ 92) :
    ∀ (pre : List Nat) (suf : List Nat) (fuel pos : Nat) (lo : Option Nat)
      (out : List Nat),
      (pre ++ c :: suf).length ≤ fuel → 92 ∉ pre → c ∉ pre →
      unescapeLoop fuel (pre ++ c :: suf) pos (some c) lo out =
        ScanResult.ok (pos + pre.length) (out ++ pre) := by
  intro pre
  induction pre with
  | nil =>
    intro suf fuel pos lo out hf _ _
    cases fuel with
    | zero => simp at hf
    | succ m => simp [unescapeLoop, hc]
  | cons b pre ih =>
    intro suf fuel pos lo out hf h92 hcp
    cases fuel with
    | zero => simp at hf
    | succ m =>
      have hb92 : b ≠ 92 := fun h => h92 (by simp [h])
      have hbc : ¬ ((some c : Option Nat) = some b) := by
        simp only [Option.some.injEq]
        exact fun h => hcp (by simp [h])
      have hstep := ih suf m (pos + 1) (some pos) (out ++ [b])
        (by simp at hf ⊢; omega)
        (fun h => h92 (List.mem_cons_of_mem b h))
        (fun h => hcp (List.mem_cons_of_mem b h))
      simp only [List.cons_append, unescapeLoop, List.append_eq]
      rw [if_neg hb92, if_neg hbc, hstep]
      have h1 : pos + 1 + pre.length = pos + (b :: pre).length := by
        simp only [List.length_cons]
        omega
      have h2 : out ++ [b] ++ pre = out ++ b :: pre := by simp
      rw [h1, h2]

/-- Scanning an escape-free byte list with no close delimiter writes it
through unchanged and returns the offset of its last byte. -/
theorem scanPlainNone :
    ∀ (l : List Nat) (fuel pos : Nat) (lo : Option Nat) (out : List Nat),
      l.length ≤ fuel → l ≠ [] → 92 ∉ l →
      unescapeLoop fuel l pos none lo out =
        ScanResult.ok (pos + l.length - 1) (out ++ l) := by
  intro l
  induction l with
  | nil => intro _ _ _ _ _ h; exact absurd rfl h
  | cons b l ih =>
    intro fuel pos lo out hf _ h92
    cases fuel with
    | zero => simp at hf
    | succ m =>
      have hb92 : b ≠ 92 := fun h => h92 (by simp [h])
      simp only [unescapeLoop]
      rw [if_neg hb92, if_neg (by simp : ¬ ((none : Option Nat) = some b))]
      by_cases hl : l = []
      · subst hl
        simp [unescapeLoop]
      · rw [ih m (pos + 1) (some pos) (out ++ [b])
          (by simp at hf ⊢; omega) hl (fun h => h92 (List.mem_cons_of_mem b h))]
        have h1 : pos + 1 + l.length - 1 = pos + (b :: l).length - 1 := by
          simp only [List.length_cons]
          omega
        have h2 : out ++ [b] ++ l = out ++ b :: l := by simp
        rw [h1, h2]

/-- Claim C6: a configured close-delimiter byte stops the scan at its first
un-escaped occurrence — the returned offset is that occurrence's position,
the delimiter is not written, and nothing past it is written — while the
escape branch of the scan loop never consults the close delimiter at all:
once a backslash is read, the following bytes go through `handleEscape`
and a successful escape just continues the loop, as the concrete run on
input `it\'s'x` with delimiter `'` shows (it decodes the escaped quote,
stops at the un-escaped quote at offset 5, and leaves `x` untouched). -/
theorem c6_close_delimiter_unescaped_only :
    (∀ (pre : List Nat) (c : Nat) (suf : List Nat),
      c ≠ 92 → 92 ∉ pre → c ∉ pre →
      unescape_iter (pre ++ c :: suf) 0 (some c) none [] =
        ScanResult.ok pre.length pre) ∧
    (∀ (fuel : Nat) (rest : List Nat) (pos c : Nat) (lo : Option Nat)
       (out w : List Nat) (k : Nat),
      handleEscape pos rest = EscStep.write w k →
      unescapeLoop (fuel + 1) (92 :: rest) pos (some c) lo out =
        unescapeLoop fuel (rest.drop k) (pos + 1 + k) (some c) (some pos)
          (out ++ w)) ∧
    (unescape_iter [105, 116, 92, 39, 115, 39, 120] 0 (some 39) none [] =
      ScanResult.ok 5 [105, 116, 39, 115]) := by
  refine ⟨?_, ?_, by decide⟩
  · intro pre c suf hc h92 hcp
    have h := scanPlainClose c hc pre suf (pre ++ c :: suf).length 0 none []
      le_rfl h92 hcp
    unfold unescape_iter
    simpa using h
  · intro fuel rest pos c lo out w k hE
    simp only [unescapeLoop, if_true]
    rw [hE]

/-- Witness for C6 at input `a'b` with delimiter `'`. -/
theorem c6_close_delimiter_unescaped_only_witness :
    unescape_iter ([97] ++ 39 :: [98]) 0 (some 39) none [] =
      ScanResult.ok [97].length [97] :=
  c6_close_delimiter_unescaped_only.1 [97] 39 [98] (by decide) (by decide)
    (by decide)

/-- Claim C10: on a non-empty input containing no backslash, with no close
delimiter, decoding is the identity: `unescape_bytes` returns exactly the
input and `unescape_iter` returns the offset of the last input byte. -/
theorem c10_identity_on_escape_free (input : List Nat) (hne : input ≠ [])
    (h92 : 92 ∉ input) :
    unescape_bytes input = BytesResult.ok input ∧
    unescape_iter input 0 none none [] =
      ScanResult.ok (input.length - 1) input := by
  have h := scanPlainNone input input.length 0 none [] le_rfl hne h92
  have h2 : unescape_iter input 0 none none [] =
      ScanResult.ok (input.length - 1) input := by
    unfold unescape_iter
    simpa using h
  exact ⟨by unfold unescape_bytes; rw [h2], h2⟩

/-- Witness for C10 at input `abc`. -/
theorem c10_identity_on_escape_free_witness :
    unescape_bytes [97, 98, 99] = BytesResult.ok [97, 98, 99] ∧
    unescape_iter [97, 98, 99] 0 none none [] =
      ScanResult.ok ([97, 98, 99].length - 1) [97, 98, 99] :=
  c10_identity_on_escape_free [97, 98, 99] (by decide) (by decide)

/-- Every error produced by `unhex` carries the `offset` it was handed as
its offset field. -/
theorem unhex_err_offset (offset : Nat) (escape : List Nat) (start : Nat)
    (stop : Option Nat) (e : UnescapeError)
    (h : unhex offset escape start stop = SubResult.err e) :
    errOffset e = some offset := by
  unfold unhex at h
  split at h
  · split at h
    · split at h
      · injection h with h1
        subst h1
        rfl
      · split at h
        · cases h
        · injection h with h1
          subst h1
          rfl
    · injection h with h1
      subst h1
      rfl
  · cases h

/-- Every error produced by `un_rust_style_u` carries the `offset` it was
handed as its offset field. -/
theorem un_rust_style_u_err_offset (offset : Nat) (escape rest : List Nat)
    (e : UnescapeError) (k : Nat)
    (h : un_rust_style_u offset escape rest = (SubResult.err e, k)) :
    errOffset e = some offset := by
  unfold un_rust_style_u at h
  rcases hsb : scanToBrace escape rest with ⟨e2, k2, f⟩
  rw [hsb] at h
  simp only at h
  split at h
  · injection h with h1 _
    injection h1 with h1
    subst h1
    rfl
  · split at h
    · injection h with h1 _
      injection h1 with h1
      subst h1
      rfl
    · split at h
      · injection h with h1 _
        cases h1
      · injection h with h1 _
        exact unhex_err_offset offset e2 3 (some (e2.length - 2)) e h1

/-- Every error produced by the octal arm carries the backslash offset. -/
theorem octalEscape_err_offset (offset byte2 : Nat) (rest : List Nat)
    (e : UnescapeError) (h : octalEscape offset byte2 rest = EscStep.err e) :
    errOffset e = some offset := by
  unfold octalEscape at h
  dsimp only at h
  split at h
  · split at h
    · injection h with h1; subst h1; rfl
    · cases h
  · injection h with h1; subst h1; rfl

/-- Every error produced by the hex arm carries the backslash offset. -/
theorem hexEscape_err_offset (offset : Nat) (rest : List Nat)
    (e : UnescapeError) (h : hexEscape offset rest = EscStep.err e) :
    errOffset e = some offset := by
  unfold hexEscape at h
  dsimp only at h
  split at h
  · injection h with h1; subst h1; rfl
  · split at h
    · split at h
      · injection h with h1; subst h1; rfl
      · cases h
    · injection h with h1; subst h1; rfl

/-- Every error produced by the `\u` arm carries the backslash offset. -/
theorem uEscape_err_offset (offset : Nat) (rest : List Nat)
    (e : UnescapeError) (h : uEscape offset rest = EscStep.err e) :
    errOffset e = some offset := by
  match rest with
  | [] =>
    unfold uEscape at h
    injection h with h1; subst h1; rfl
  | byte3 :: rest1 =>
    unfold uEscape at h
    dsimp only at h
    split at h
    · split at h
      · cases h
      · rename_i heq
        injection h with h1
        subst h1
        exact un_rust_style_u_err_offset offset _ _ _ _ heq
      · cases h
    · split at h
      · injection h with h1; subst h1; rfl
      · split at h
        · cases h
        · rename_i heq
          injection h with h1
          subst h1
          exact unhex_err_offset offset _ 2 none _ heq
        · cases h

/-- Every error produced by the `\U` arm carries the backslash offset. -/
theorem uUpperEscape_err_offset (offset : Nat) (rest : List Nat)
    (e : UnescapeError) (h : uUpperEscape offset rest = EscStep.err e) :
    errOffset e = some offset := by
  match rest with
  | [] =>
    unfold uUpperEscape at h
    injection h with h1; subst h1; rfl
  | byte3 :: rest1 =>
    unfold uUpperEscape at h
    dsimp only at h
    split at h
    · injection h with h1; subst h1; rfl
    · split at h
      · cases h
      · rename_i heq
        injection h with h1
        subst h1
        exact unhex_err_offset offset _ 2 none _ heq
      · cases h

/-- Every error produced by the `\c` arm carries the backslash offset. -/
theorem cEscape_err_offset (offset : Nat) (rest : List Nat)
    (e : UnescapeError) (h : cEscape offset rest = EscStep.err e) :
    errOffset e = some offset := by
  match rest with
  | [] =>
    unfold cEscape at h
    injection h with h1; subst h1; rfl
  | byte3 :: rest1 =>
    unfold cEscape at h
    dsimp only at h
    split at h
    · cases h
    · split at h
      · cases h
      · injection h with h1; subst h1; rfl

/-- Every error produced by the escape dispatcher carries the offset of
the backslash that began the escape. -/
theorem handleEscape_err_offset (offset : Nat) (l : List Nat)
    (e : UnescapeError) (h : handleEscape offset l = EscStep.err e) :
    errOffset e = some offset := by
  match l with
  | [] => exact absurd h (by simp [handleEscape])
  | byte2 :: rest =>
    unfold handleEscape at h
    dsimp only at h
    by_cases c1 : byte2 = 97
    · rw [if_pos c1] at h; cases h
    rw [if_neg c1] at h
    by_cases c2 : byte2 = 98
    · rw [if_pos c2] at h; cases h
    rw [if_neg c2] at h
    by_cases c3 : byte2 = 101 ∨ byte2 = 69
    · rw [if_pos c3] at h; cases h
    rw [if_neg c3] at h
    by_cases c4 : byte2 = 102
    · rw [if_pos c4] at h; cases h
    rw [if_neg c4] at h
    by_cases c5 : byte2 = 110
    · rw [if_pos c5] at h; cases h
    rw [if_neg c5] at h
    by_cases c6 : byte2 = 114
    · rw [if_pos c6] at h; cases h
    rw [if_neg c6] at h
    by_cases c7 : byte2 = 116
    · rw [if_pos c7] at h; cases h
    rw [if_neg c7] at h
    by_cases c8 : byte2 = 118
    · rw [if_pos c8] at h; cases h
    rw [if_neg c8] at h
    by_cases c9 : byte2 = 39
    · rw [if_pos c9] at h; cases h
    rw [if_neg c9] at h
    by_cases c10 : byte2 = 34
    · rw [if_pos c10] at h; cases h
    rw [if_neg c10] at h
    by_cases c11 : byte2 = 92
    · rw [if_pos c11] at h; cases h
    rw [if_neg c11] at h
    by_cases c12 : 48 ≤ byte2 ∧ byte2 ≤ 57
    · rw [if_pos c12] at h
      exact octalEscape_err_offset offset byte2 rest e h
    rw [if_neg c12] at h
    by_cases c13 : byte2 = 120
    · rw [if_pos c13] at h
      exact hexEscape_err_offset offset rest e h
    rw [if_neg c13] at h
    by_cases c14 : byte2 = 117
    · rw [if_pos c14] at h
      exact uEscape_err_offset offset rest e h
    rw [if_neg c14] at h
    by_cases c15 : byte2 = 85
    · rw [if_pos c15] at h
      exact uUpperEscape_err_offset offset rest e h
    rw [if_neg c15] at h
    by_cases c16 : byte2 = 99
    · rw [if_pos c16] at h
      exact cEscape_err_offset offset rest e h
    rw [if_neg c16] at h
    injection h with h1
    subst h1
    rfl

/-- Any invalid-backslash error returned by the scan loop carries an
offset at least the current position that points at a backslash byte of
the remaining input. -/
theorem errOffsetLoopAux :
    ∀ (fuel : Nat) (input : List Nat) (pos : Nat) (close lo : Option Nat)
      (out : List Nat) (kind : InvalidBackslashKind) (o : Nat) (s b : String)
      (out2 : List Nat),
      input.length ≤ fuel →
      unescapeLoop fuel input pos close lo out =
        ScanResult.err (UnescapeError.invalidBackslash kind o s b) out2 →
      pos ≤ o ∧ input[o - pos]? = some 92 := by
  intro fuel
  induction fuel with
  | zero =>
    intro input pos close lo out kind o s b out2 hl h
    match input with
    | [] =>
      cases close with
      | some c => simp [unescapeLoop, UnescapeError.missing_close] at h
      | none => cases lo <;> simp [unescapeLoop] at h
    | _ :: _ => simp at hl
  | succ fuel ih =>
    intro input pos close lo out kind o s b out2 hl h
    match input with
    | [] =>
      cases close with
      | some c => simp [unescapeLoop, UnescapeError.missing_close] at h
      | none => cases lo <;> simp [unescapeLoop] at h
    | byte :: rest =>
      rw [show unescapeLoop (fuel + 1) (byte :: rest) pos close lo out =
            (if byte = 92 then
              match handleEscape pos rest with
              | EscStep.write w k =>
                  unescapeLoop fuel (rest.drop k) (pos + 1 + k) close (some pos)
                    (out ++ w)
              | EscStep.err e => ScanResult.err e out
              | EscStep.fallthrough =>
                  unescapeLoop fuel [] (pos + 1) close (some pos) out
              | EscStep.panicked => ScanResult.panicked out
            else if close = some byte then ScanResult.ok pos out
            else unescapeLoop fuel rest (pos + 1) close (some pos)
              (out ++ [byte])) from rfl] at h
      by_cases hb : byte = 92
      · rw [if_pos hb] at h
        subst hb
        cases hE : handleEscape pos rest with
        | write w k =>
          rw [hE] at h
          have hlen : (rest.drop k).length ≤ fuel := by
            simp only [List.length_drop]
            simp only [List.length_cons] at hl
            omega
          obtain ⟨h1, h2⟩ := ih (rest.drop k) (pos + 1 + k) close (some pos)
            (out ++ w) kind o s b out2 hlen h
          refine ⟨by omega, ?_⟩
          rw [List.getElem?_drop] at h2
          rw [show o - pos = (o - pos - 1) + 1 by omega, List.getElem?_cons_succ]
          rw [show k + (o - (pos + 1 + k)) = o - pos - 1 by omega] at h2
          exact h2
        | err e' =>
          rw [hE] at h
          injection h with h1 _
          have hoff := handleEscape_err_offset pos rest e' hE
          rw [h1] at hoff
          simp only [errOffset] at hoff
          injection hoff with hoff
          refine ⟨by omega, ?_⟩
          rw [show o - pos = 0 by omega]
          simp
        | fallthrough =>
          rw [hE] at h
          cases close with
          | some c => simp [unescapeLoop, UnescapeError.missing_close] at h
          | none => simp [unescapeLoop] at h
        | panicked => rw [hE] at h; cases h
      · rw [if_neg hb] at h
        by_cases hc : close = some byte
        · rw [if_pos hc] at h; cases h
        · rw [if_neg hc] at h
          obtain ⟨h1, h2⟩ := ih rest (pos + 1) close (some pos) (out ++ [byte])
            kind o s b out2 (by simp only [List.length_cons] at hl; omega) h
          refine ⟨by omega, ?_⟩
          rw [show o - pos = (o - (pos + 1)) + 1 by omega, List.getElem?_cons_succ]
          exact h2

/-- Claim C8 counterexample: the claim states every error value carries
both an offset and the raw escape bytes, including the missing-close and
I/O variants.  Decoding `abc` with close delimiter `'` returns the
`MissingClose` error, which has no offset field at all. -/
theorem c8_counterexample :
    unescape_iter [97, 98, 99] 0 (some 39) none [] =
      ScanResult.err (UnescapeError.missing_close 39) [97, 98, 99] ∧
    errOffset (UnescapeError.missing_close 39) = none :=
  ⟨by decide, rfl⟩

/-- Claim C8 (amended): invalid-backslash errors carry the exact offset of
the backslash that began the failing escape together with the renderings
of the raw escape bytes; the missing-close error carries only the
delimiter's renderings and no offset; the I/O error carries only the
wrapped error, with neither offset nor bytes. -/
theorem c8_error_payloads :
    (∀ (input : List Nat) (pos : Nat) (close lo : Option Nat)
       (out : List Nat) (kind : InvalidBackslashKind) (o : Nat) (s b : String)
       (out2 : List Nat),
       unescape_iter input pos close lo out =
         ScanResult.err (UnescapeError.invalidBackslash kind o s b) out2 →
       pos ≤ o ∧ input[o - pos]? = some 92) ∧
    (∀ (off : Nat) (bs : List Nat) (kind : InvalidBackslashKind),
       errOffset (UnescapeError.invalid_backslash off bs kind) = some off ∧
       errRawBytes (UnescapeError.invalid_backslash off bs kind) =
         some (pretty_bytes bs)) ∧
    (∀ c, errOffset (UnescapeError.missing_close c) = none ∧
       errRawBytes (UnescapeError.missing_close c) = some (pretty_bytes [c])) ∧
    (errOffset UnescapeError.ioError = none ∧
       errRawBytes UnescapeError.ioError = none) := by
  refine ⟨?_, fun off bs kind => ⟨rfl, rfl⟩, fun c => ⟨rfl, rfl⟩, rfl, rfl⟩
  intro input pos close lo out kind o s b out2 h
  exact errOffsetLoopAux input.length input pos close lo out kind o s b out2
    le_rfl h

/-- Witness for C8 at input `a\q`, whose unknown-escape error carries
offset 1, the position of the backslash. -/
theorem c8_error_payloads_witness :
    0 ≤ 1 ∧ [97, 92, 113][1 - 0]? = some 92 :=
  c8_error_payloads.1 [97, 92, 113] 0 none none []
    InvalidBackslashKind.BackslashEscapeUnknown 1 (pretty_string [92, 113])
    (pretty_bytes [92, 113]) [97] (by decide)

end Smashquote
